import Mathlib

/-!
# Verification of ralloc's break arbiter and skip-list pool search

This file embeds, as executable Lean definitions, the two source files of the
repository: `src/brk.rs` (the BRK arbiter: `BrkLock::sbrk`, `BrkLock::release`,
`BrkLock::current_brk`, `BrkLock::canonical_brk`, and the exported process-wide
`sbrk` entry point) and `src/bk/pool.rs` (`Pool::search_with`, the skip-list
search).

Addresses are modelled as `Int` (pointer arithmetic with signed deltas), byte
sizes as `Nat`.  Collaborators that live outside the two source files (the
`Block` value type, the break-adjustment syscall shim, the `extra_brk`
configuration policy, the OOM handler, and the skip-list node/shortcut/seek
machinery) are modelled from the specification; each such definition carries a
doc comment starting with `Modelled from the spec:`.
-/

namespace Ralloc

/-! ## Blocks (modelled from the spec, §3 Data model) -/

/-- Modelled from the spec: a Block is "a value type describing a contiguous,
currently-free memory range (start address + size)"; `block.rs` is not part of
the shown source. -/
structure Block where
  base : Int
  size : Nat
deriving DecidableEq

/-- Modelled from the spec: `empty_right` produces the block's end address
(a zero-size placeholder placed right after the block); `release` compares it
against the current break, so we expose it as the end address itself. -/
def Block.empty_right (b : Block) : Int := b.base + (b.size : Int)

/-- Modelled from the spec: "splitting a Block at an offset yields two disjoint
Blocks whose union (address-and-size-wise) equals the original". -/
def Block.split (b : Block) (pos : Nat) : Block × Block :=
  (⟨b.base, pos⟩, ⟨b.base + (pos : Int), b.size - pos⟩)

/-- Modelled from the spec: "aligning a Block yields an optional precursor
Block (the misaligned head) and a remainder Block whose base satisfies the
requested alignment"; the precursor holds the bytes before the first address
satisfying `align`. -/
def Block.align (b : Block) (align : Nat) : Option (Block × Block) :=
  let aligner : Nat := (((align : Int) - b.base % (align : Int)) % (align : Int)).toNat
  if aligner < b.size then
    some (⟨b.base, aligner⟩, ⟨b.base + (aligner : Int), b.size - aligner⟩)
  else
    none

/-- Modelled from the spec: `aligned_to` tests whether the block's base address
is divisible by the alignment. -/
def Block.aligned_to (b : Block) (align : Nat) : Bool :=
  b.base % (align : Int) == 0

/-! ## Break state and the OS shim -/

/-- A cache of the BRK state (`struct BrkState` in `brk.rs`): the optional
cached current program break. -/
structure BrkState where
  current_brk : Option Int
deriving DecidableEq

/-- The state a held `BrkLock` gives access to: the cached `BrkState` guarded
by the global mutex, together with the OS-side actual program break.  The OS
break is modelled from the spec (the break-adjustment syscall shim is outside
the shown source); the model is sequential, the lock's critical section being
the unit of atomicity. -/
structure BrkLock where
  os_brk : Int
  state : BrkState
deriving DecidableEq

/-- Modelled from the spec: the break-adjustment syscall shim, "a single
operation `request_break(new_break_address) -> previous_break_address`,
matching the documented OS behavior: on failure, returns the address
unchanged".  `grant` is the OS policy deciding whether a request is granted.
Returns `(new OS break, reported previous break)`. -/
def request_break (grant : Int → Bool) (os_brk : Int) (req : Int) : Int × Int :=
  if grant req then (req, os_brk) else (os_brk, os_brk)

/-- `BrkLock::current_brk`: return the cached break if present, else query the
OS once (`syscalls::brk(null)`, which cannot be granted and reports the
unchanged break) and populate the cache. -/
def BrkLock.current_brk (l : BrkLock) : Int × BrkLock :=
  match l.state.current_brk with
  | some cur => (cur, l)
  | none => (l.os_brk, ⟨l.os_brk, ⟨some l.os_brk⟩⟩)

/-- `BrkLock::sbrk`: compute the expected new break from the cache, issue the
break request, and detect failure by `expected_brk == old_brk && size != 0`;
on failure nothing is written to the cache, on success the cache is updated to
the expected new break and the reported old break is returned. -/
def BrkLock.sbrk (grant : Int → Bool) (l : BrkLock) (size : Int) :
    Except Unit Int × BrkLock :=
  let q := BrkLock.current_brk l
  let expected_brk := q.fst + size
  let r := request_break grant q.snd.os_brk expected_brk
  if expected_brk = r.snd ∧ size ≠ 0 then
    (.error (), { q.snd with os_brk := r.fst })
  else
    (.ok r.snd, { os_brk := r.fst, state := ⟨some expected_brk⟩ })

/-- `BrkLock::release`: if the block's end address equals the current break,
shrink the break by the block's size (the result of the inner `sbrk` is only
debug-asserted, see `BrkLock.release_shrink_ok`); otherwise hand the block
back as the failure value. -/
def BrkLock.release (grant : Int → Bool) (l : BrkLock) (block : Block) :
    Except Block Unit × BrkLock :=
  let q := BrkLock.current_brk l
  if q.fst = Block.empty_right block then
    let r := BrkLock.sbrk grant q.snd (-(block.size : Int))
    (.ok (), r.snd)
  else
    (.error block, q.snd)

/-- The condition of the `debug_assert!(res.is_ok(), ..)` inside
`BrkLock::release`: `true` when the inner shrinking `sbrk` (performed only in
the break-adjacent branch) succeeds, `true` trivially in the other branch. -/
def BrkLock.release_shrink_ok (grant : Int → Bool) (l : BrkLock) (block : Block) : Bool :=
  let q := BrkLock.current_brk l
  if q.fst = Block.empty_right block then
    match (BrkLock.sbrk grant q.snd (-(block.size : Int))).fst with
    | .ok _ => true
    | .error _ => false
  else
    true

/-- Outcome of `BrkLock::canonical_brk`.  `oom` models the escalation to the
out-of-memory handler (`fail::oom()`, a non-returning path — modelled from the
spec); `alignFail` models the `.unwrap()` panic on `Block::align` returning
nothing.  There is no error *value* a caller could receive. -/
inductive CanonicalResult where
  | oom
  | alignFail
  | ok (blocks : Block × Block × Block)
deriving DecidableEq

/-- `BrkLock::canonical_brk`: request `size + extra_brk(size) + align` bytes
via `sbrk` (escalating to the OOM handler on failure), split off the alignment
precursor, then split the remainder at `size` into the result block and the
excessive space.  `extra_brk` is the configuration policy (modelled from the
spec as an arbitrary pure function). -/
def BrkLock.canonical_brk (grant : Int → Bool) (extra_brk : Nat → Nat) (l : BrkLock)
    (size align : Nat) : CanonicalResult × BrkLock :=
  match BrkLock.sbrk grant l ((size + extra_brk size + align : Nat) : Int) with
  | (.error _, l1) => (.oom, l1)
  | (.ok ptr, l1) =>
    match Block.align ⟨ptr, size + extra_brk size + align⟩ align with
    | none => (.alignFail, l1)
    | some (alignment_block, rest) =>
      (.ok (alignment_block, (Block.split rest size).fst, (Block.split rest size).snd), l1)

/-- The sentinel `!0 as *mut u8` returned by the exported `sbrk` on failure
(the all-ones pointer of a 64-bit machine). -/
def max_ptr : Int := 2 ^ 64 - 1

/-- The exported process-wide `sbrk` entry point: takes the lock itself, and
converts a failure of the locked `sbrk` into the `max_ptr` sentinel instead of
propagating an error value. -/
def sbrk (grant : Int → Bool) (l : BrkLock) (size : Int) : Int × BrkLock :=
  match BrkLock.sbrk grant l size with
  | (.ok p, l1) => (p, l1)
  | (.error _, l1) => (max_ptr, l1)

/-! ## Skip-list pool search (`src/bk/pool.rs`)

The node/shortcut/seek machinery (`bk/node.rs`, `bk/shortcut.rs`,
`bk/seek.rs`, `bk/search.rs`, `bk/lv.rs`) is not part of the shown source, so
it is modelled from the spec; the control flow of `search_with` follows
`pool.rs`. -/

/-- Modelled from the spec: a skip-list node.  Its payload is abstracted to a
key; `height` is the highest level the node appears at ("level 0 links every
node in address order; each higher level is a strict subsequence of the level
below"), so the node is linked at every level `≤ height`. -/
structure Node where
  key : Nat
  height : Nat
deriving DecidableEq

/-- Modelled from the spec: a shortcut, "a forward link at a given level".
`src` is the node owning the link (`none` for the head sentinel) and `node`
the node it leads to (the field name `node` matches the `shortcut.node` access
in `pool.rs`). -/
structure Shortcut where
  src : Option Node
  node : Node
deriving DecidableEq

/-- Modelled from the spec: a Searcher is "a pluggable strategy defining
`refine` (descend/overshoot test) and `is_match` (bottom-level acceptance
test)"; `refine` is applied to the node a shortcut leads to. -/
structure Searcher where
  refine : Node → Bool
  is_match : Node → Bool

/-- The result of a search (`bk/seek.rs`, modelled from the spec): the matched
node plus the per-level back-look.  Following the spec's design note, the
"uninitialized" cells of the source's `mem::uninitialized()` back-look array
are modelled explicitly as an option per level. -/
structure Seek where
  node : Node
  back_look : Nat → Option Shortcut

/-- The block pool: the head sentinel and the arena are implicit; `nodes` is
the level-0 (complete, address-ordered) sequence of real nodes after the head
sentinel. -/
structure Pool where
  nodes : List Node

/-- Modelled from the spec: one level of the `follow_shortcut` iteration.
Starting from a position whose remaining level-0 suffix is `resume` (the
nodes strictly after the last non-overshoot node `pred`), advance along the
level-`l` shortcuts (the nodes of height `≥ l` in order) until the searcher's
`refine` accepts the node reached (the overshoot).  Returns the shortcut taken
(from the predecessor to the overshoot), the predecessor, and the level-0
suffix after the predecessor — the spec resumes the descent "at the last
refined shortcut from the previous level".  Returns `none` when the level is
exhausted without refining (the iterator reaches NIL). -/
def findRefine (s : Searcher) (l : Nat) (pred : Option Node) (resume : List Node) :
    List Node → Option (Shortcut × Option Node × List Node)
  | [] => none
  | q :: rs =>
    if l ≤ q.height then
      if s.refine q then some (⟨pred, q⟩, pred, resume)
      else findRefine s l (some q) rs rs
    else findRefine s l pred resume rs

/-- The bottom phase of `search_with` (`pool.rs`): `iter.next()` yields the
next level-0 shortcut (whose destination is the first remaining node), and
`shortcut.node.iter()` walks the nodes from there on, looking for the first
`is_match`; either `None` is a search miss. -/
def bottomPhase (s : Searcher) (resume : List Node) (bl : Nat → Option Shortcut) :
    Except Unit Seek :=
  match resume with
  | [] => .error ()
  | _ :: _ =>
    match resume.find? s.is_match with
    | some found => .ok ⟨found, bl⟩
    | none => .error ()

/-- The `while let Some(shortcut_taken) = iter.find(|x| searcher.refine(x))`
loop of `search_with`: at level `l`, find the refining shortcut (exhaustion of
the iterator makes the subsequent `iter.next()` fail, a search miss), store it
in the back-look at index `l` (`seek.back_look[lv] = shortcut_taken`, where
`decrement_level` returns the level just left), break to the bottom phase when
the old level is 1, else continue one level down.  Level 0 as the *starting*
level does not occur for a skip list with a positive top level (the source
would underflow the level counter there); the model reports a miss. -/
def searchLoop (s : Searcher) : Nat → Option Node → List Node → (Nat → Option Shortcut) →
    Except Unit Seek
  | 0, _, _, _ => .error ()
  | l + 1, pred, resume, bl =>
    match findRefine s (l + 1) pred resume resume with
    | none => .error ()
    | some (edge, pred2, resume2) =>
      let bl2 : Nat → Option Shortcut := fun j => if j = l + 1 then some edge else bl j
      if l = 0 then bottomPhase s resume2 bl2
      else searchLoop s l pred2 resume2 bl2

/-- `Pool::search_with`: start at the highest level (`lv::Level::max()`,
modelled as the parameter `top`, with every back-look cell unvisited) and run
the search loop. -/
def Pool.search_with (top : Nat) (p : Pool) (s : Searcher) : Except Unit Seek :=
  searchLoop s top none p.nodes (fun _ => none)

/-! ## Helper lemmas -/

/-- The shim always reports the previous (possibly unchanged) break. -/
lemma request_break_snd (grant : Int → Bool) (os_brk req : Int) :
    (request_break grant os_brk req).snd = os_brk := by
  unfold request_break
  split <;> rfl

/-- Characterization of `BrkLock.sbrk` when the break is cached: the two
branches of the failure check, written without the intermediate bindings. -/
lemma sbrk_eq (grant : Int → Bool) (l : BrkLock) (cur size : Int)
    (h : l.state.current_brk = some cur) :
    BrkLock.sbrk grant l size =
      if cur + size = l.os_brk ∧ size ≠ 0 then
        (.error (), { l with os_brk := (request_break grant l.os_brk (cur + size)).fst })
      else
        (.ok l.os_brk,
          ⟨(request_break grant l.os_brk (cur + size)).fst, ⟨some (cur + size)⟩⟩) := by
  unfold BrkLock.sbrk BrkLock.current_brk
  rw [h]
  simp only [request_break_snd]

/-! ## Claims about `BrkLock::sbrk` -/

/-- C2: with the lock held and the break cached, `sbrk(size)` fails (returns
the `BrkFailure` value `Err(())`) if and only if the OS-reported old break
equals the expected new break (cached current break plus the delta) and the
delta is nonzero; `sbrk(0)` always succeeds; and on failure the cached break
is left unmodified. -/
theorem sbrk_failure_iff (grant : Int → Bool) (l : BrkLock) (cur size : Int)
    (h : l.state.current_brk = some cur) :
    ((BrkLock.sbrk grant l size).fst = .error () ↔
      ((request_break grant l.os_brk (cur + size)).snd = cur + size ∧ size ≠ 0)) ∧
    (BrkLock.sbrk grant l 0).fst = .ok l.os_brk ∧
    ((BrkLock.sbrk grant l size).fst = .error () →
      (BrkLock.sbrk grant l size).snd.state.current_brk = some cur) := by
  have he := sbrk_eq grant l cur size h
  refine ⟨?_, ?_, ?_⟩
  · rw [he, request_break_snd]
    by_cases hcond : cur + size = l.os_brk ∧ size ≠ 0
    · rw [if_pos hcond]
      exact iff_of_true rfl ⟨hcond.1.symm, hcond.2⟩
    · rw [if_neg hcond]
      constructor
      · intro hx
        simp at hx
      · intro hx
        exact absurd ⟨hx.1.symm, hx.2⟩ hcond
  · rw [sbrk_eq grant l cur 0 h, if_neg (by simp)]
  · rw [he]
    by_cases hcond : cur + size = l.os_brk ∧ size ≠ 0
    · rw [if_pos hcond]
      intro _
      exact h
    · rw [if_neg hcond]
      intro hx
      simp at hx

/-- Witness for C2: a concrete failing call (stale cache `5`, OS break `7`,
delta `2`) exercising all three conjuncts. -/
theorem sbrk_failure_iff_witness :
    ((BrkLock.sbrk (fun _ => true) ⟨7, ⟨some 5⟩⟩ 2).fst = .error () ↔
      ((request_break (fun _ => true) (7 : Int) (5 + 2)).snd = 5 + 2 ∧ (2 : Int) ≠ 0)) ∧
    (BrkLock.sbrk (fun _ => true) ⟨7, ⟨some 5⟩⟩ 0).fst = .ok 7 ∧
    ((BrkLock.sbrk (fun _ => true) ⟨7, ⟨some 5⟩⟩ 2).fst = .error () →
      (BrkLock.sbrk (fun _ => true) ⟨7, ⟨some 5⟩⟩ 2).snd.state.current_brk = some 5) :=
  sbrk_failure_iff (fun _ => true) ⟨7, ⟨some 5⟩⟩ 5 2 rfl

/-- C3: with the lock held and the break cached, a successful `sbrk(size)`
returns exactly the break address the OS reported, and afterwards the cached
break equals the expected new break, i.e. the previous cached break plus the
delta. -/
theorem sbrk_success_spec (grant : Int → Bool) (l : BrkLock) (cur size p : Int)
    (h : l.state.current_brk = some cur)
    (hs : (BrkLock.sbrk grant l size).fst = .ok p) :
    p = (request_break grant l.os_brk (cur + size)).snd ∧
    (BrkLock.sbrk grant l size).snd.state.current_brk = some (cur + size) := by
  have he := sbrk_eq grant l cur size h
  rw [he] at hs ⊢
  by_cases hcond : cur + size = l.os_brk ∧ size ≠ 0
  · rw [if_pos hcond] at hs
    simp at hs
  · rw [if_neg hcond] at hs ⊢
    have hp : l.os_brk = p := by simpa using hs
    exact ⟨by rw [request_break_snd]; exact hp.symm, rfl⟩

/-- Witness for C3: a concrete successful call from a clean state. -/
theorem sbrk_success_spec_witness :
    (0 : Int) = (request_break (fun _ => true) (0 : Int) (0 + 5)).snd ∧
    (BrkLock.sbrk (fun _ => true) ⟨0, ⟨some 0⟩⟩ 5).snd.state.current_brk = some (0 + 5) :=
  sbrk_success_spec (fun _ => true) ⟨0, ⟨some 0⟩⟩ 0 5 0 rfl rfl

/-! ## Claim about the exported `sbrk` entry point -/

/-- C10: the exported process-wide `sbrk` never propagates an error value: a
failure of the underlying locked `sbrk` is converted to the maximum-pointer
sentinel `!0`, and on success the previous break address is returned as is. -/
theorem sbrk_entry_no_error (grant : Int → Bool) (l : BrkLock) (size : Int) :
    ((BrkLock.sbrk grant l size).fst = .error () → (sbrk grant l size).fst = max_ptr) ∧
    (∀ p : Int, (BrkLock.sbrk grant l size).fst = .ok p → (sbrk grant l size).fst = p) := by
  constructor
  · intro hf
    have hsb : BrkLock.sbrk grant l size = (.error (), (BrkLock.sbrk grant l size).snd) := by
      rw [← hf]
    unfold sbrk
    rw [hsb]
  · intro p hp
    have hsb : BrkLock.sbrk grant l size = (.ok p, (BrkLock.sbrk grant l size).snd) := by
      rw [← hp]
    unfold sbrk
    rw [hsb]

/-- Witness for C10: the failing call returns the sentinel, the succeeding
call the reported old break. -/
theorem sbrk_entry_no_error_witness :
    (sbrk (fun _ => true) ⟨12, ⟨some 10⟩⟩ 2).fst = max_ptr ∧
    (sbrk (fun _ => true) ⟨0, ⟨some 0⟩⟩ 5).fst = 0 :=
  ⟨(sbrk_entry_no_error (fun _ => true) ⟨12, ⟨some 10⟩⟩ 2).1 rfl,
   (sbrk_entry_no_error (fun _ => true) ⟨0, ⟨some 0⟩⟩ 5).2 0 rfl⟩

/-! ## Claims about `BrkLock::release` -/

/-- C4: with the lock held, the break cached and the cache agreeing with the
OS break, `release(block)` succeeds exactly when the block's end address
equals the current break; in that case (when the OS grants the shrink, the
failure of which is the internal inconsistency of C8) the break is shrunk by
exactly the block's size and the cache follows it; otherwise the block itself
is returned unchanged as the failure value and the whole state (OS break and
cache) is untouched. -/
theorem release_spec (grant : Int → Bool) (l : BrkLock) (cur : Int) (block : Block)
    (h : l.state.current_brk = some cur) (hacc : l.os_brk = cur) :
    ((BrkLock.release grant l block).fst = .ok () ↔ cur = Block.empty_right block) ∧
    (cur = Block.empty_right block → grant (cur - (block.size : Int)) = true →
      (BrkLock.release grant l block).snd.os_brk = l.os_brk - (block.size : Int) ∧
      (BrkLock.release grant l block).snd.state.current_brk =
        some (cur - (block.size : Int))) ∧
    (cur ≠ Block.empty_right block →
      (BrkLock.release grant l block).fst = .error block ∧
      (BrkLock.release grant l block).snd = l) := by
  have hc : BrkLock.current_brk l = (cur, l) := by
    unfold BrkLock.current_brk
    rw [h]
  have hrel : BrkLock.release grant l block =
      if cur = Block.empty_right block then
        (.ok (), (BrkLock.sbrk grant l (-(block.size : Int))).snd)
      else
        (.error block, l) := by
    unfold BrkLock.release
    rw [hc]
  have hnofail : ¬(cur + -(block.size : Int) = l.os_brk ∧ -(block.size : Int) ≠ 0) := by
    omega
  have hsb := sbrk_eq grant l cur (-(block.size : Int)) h
  rw [if_neg hnofail] at hsb
  refine ⟨?_, ?_, ?_⟩
  · rw [hrel]
    by_cases hadj : cur = Block.empty_right block
    · rw [if_pos hadj]
      exact iff_of_true rfl hadj
    · rw [if_neg hadj]
      constructor
      · intro hx
        simp at hx
      · intro hx
        exact absurd hx hadj
  · intro hadj hg
    rw [sub_eq_add_neg] at hg
    rw [hrel, if_pos hadj, hsb]
    unfold request_break
    rw [hg]
    simp only [if_pos]
    refine ⟨by omega, ?_⟩
    rw [sub_eq_add_neg]
  · intro hadj
    rw [hrel, if_neg hadj]
    exact ⟨rfl, rfl⟩

/-- Witness for C4: break and cache at `10`, releasing the break-adjacent
block `[6, 10)` with a granting OS. -/
theorem release_spec_witness :
    ((BrkLock.release (fun _ => true) ⟨10, ⟨some 10⟩⟩ ⟨6, 4⟩).fst = .ok () ↔
      (10 : Int) = Block.empty_right ⟨6, 4⟩) ∧
    ((10 : Int) = Block.empty_right ⟨6, 4⟩ → (fun _ => true : Int → Bool) (10 - (4 : Nat)) = true →
      (BrkLock.release (fun _ => true) ⟨10, ⟨some 10⟩⟩ ⟨6, 4⟩).snd.os_brk =
        10 - ((4 : Nat) : Int) ∧
      (BrkLock.release (fun _ => true) ⟨10, ⟨some 10⟩⟩ ⟨6, 4⟩).snd.state.current_brk =
        some (10 - ((4 : Nat) : Int))) ∧
    ((10 : Int) ≠ Block.empty_right ⟨6, 4⟩ →
      (BrkLock.release (fun _ => true) ⟨10, ⟨some 10⟩⟩ ⟨6, 4⟩).fst = .error ⟨6, 4⟩ ∧
      (BrkLock.release (fun _ => true) ⟨10, ⟨some 10⟩⟩ ⟨6, 4⟩).snd = ⟨10, ⟨some 10⟩⟩) :=
  release_spec (fun _ => true) ⟨10, ⟨some 10⟩⟩ 10 ⟨6, 4⟩ rfl rfl

/-- C8 (counterexample): the claim "under the precondition that the block's
end equals the current break, the shrink's error branch is unreachable and the
assertion holds" fails on the code: an `sbrk` whose request the OS does not
grant leaves the cache ahead of the OS break while reporting success (the
failure check cannot see it), and from that program-reachable state a
break-adjacent `release` takes the inner error branch, so the debug assertion
is violated.  Concretely: from break `10` (cached accurately), `sbrk(10)`
under a refusing OS yields cache `20`, OS break `10`; releasing the block
`[10, 20)` — whose end `20` equals the current (cached) break — makes the
inner `sbrk(-10)` fail. -/
theorem release_assert_counterexample :
    (BrkLock.sbrk (fun _ => false) ⟨10, ⟨some 10⟩⟩ 10).snd = ⟨10, ⟨some 20⟩⟩ ∧
    (BrkLock.current_brk ⟨10, ⟨some 20⟩⟩).fst = Block.empty_right ⟨10, 10⟩ ∧
    BrkLock.release_shrink_ok (fun _ => false) ⟨10, ⟨some 20⟩⟩ ⟨10, 10⟩ = false := by
  refine ⟨rfl, rfl, rfl⟩

/-- C8 (amended): the failure of the inner shrinking `sbrk` in `release` is
debug-asserted, never silently swallowed; and whenever the cached break agrees
with the OS break — which holds unless an earlier undetected `sbrk` failure
corrupted the cache — the shrink's error branch is unreachable (for every
block, break-adjacent or not), so the assertion holds. -/
theorem release_assert_holds (grant : Int → Bool) (l : BrkLock) (cur : Int) (block : Block)
    (h : l.state.current_brk = some cur) (hacc : l.os_brk = cur) :
    BrkLock.release_shrink_ok grant l block = true := by
  have hc : BrkLock.current_brk l = (cur, l) := by
    unfold BrkLock.current_brk
    rw [h]
  have hnofail : ¬(cur + -(block.size : Int) = l.os_brk ∧ -(block.size : Int) ≠ 0) := by
    omega
  have hsb := sbrk_eq grant l cur (-(block.size : Int)) h
  rw [if_neg hnofail] at hsb
  unfold BrkLock.release_shrink_ok
  rw [hc]
  by_cases hadj : cur = Block.empty_right block
  · rw [if_pos hadj, hsb]
  · rw [if_neg hadj]

/-- Witness for the amended C8: an accurate state where the assertion holds on
a break-adjacent release. -/
theorem release_assert_holds_witness :
    BrkLock.release_shrink_ok (fun _ => true) ⟨10, ⟨some 10⟩⟩ ⟨6, 4⟩ = true :=
  release_assert_holds (fun _ => true) ⟨10, ⟨some 10⟩⟩ 10 ⟨6, 4⟩ rfl rfl

/-! ## Claim about OOM escalation in `canonical_brk` -/

/-- C7: when the `sbrk` call inside `canonical_brk` fails, `canonical_brk`
does not hand a failure value back to its caller: the `unwrap_or_else`
escalates to the out-of-memory handler (`fail::oom()`, the non-returning path
modelled by `CanonicalResult.oom`). -/
theorem canonical_brk_oom_escalation (grant : Int → Bool) (extra_brk : Nat → Nat)
    (l : BrkLock) (size align : Nat)
    (h : (BrkLock.sbrk grant l ((size + extra_brk size + align : Nat) : Int)).fst =
      .error ()) :
    (BrkLock.canonical_brk grant extra_brk l size align).fst = .oom := by
  have hsb : BrkLock.sbrk grant l ((size + extra_brk size + align : Nat) : Int) =
      (.error (), (BrkLock.sbrk grant l ((size + extra_brk size + align : Nat) : Int)).snd) := by
    rw [← h]
  unfold BrkLock.canonical_brk
  rw [hsb]

/-- Witness for C7: a state whose stale cache makes the inner `sbrk` report
failure (`size = 1`, `align = 1`, no extra slack). -/
theorem canonical_brk_oom_escalation_witness :
    (BrkLock.canonical_brk (fun _ => true) (fun _ => 0) ⟨12, ⟨some 10⟩⟩ 1 1).fst = .oom :=
  canonical_brk_oom_escalation (fun _ => true) (fun _ => 0) ⟨12, ⟨some 10⟩⟩ 1 1 rfl

/-! ## Claims about `BrkLock::canonical_brk` -/

/-- The precursor length computed by `Block.align` is smaller than the
(positive) alignment. -/
lemma aligner_lt_align (a : Int) {align : Nat} (h : 0 < align) :
    (((align : Int) - a % (align : Int)) % (align : Int)).toNat < align := by
  have h0 : (0 : Int) < (align : Int) := by exact_mod_cast h
  have h1 := Int.emod_lt_of_pos ((align : Int) - a % (align : Int)) h0
  have h2 := Int.emod_nonneg ((align : Int) - a % (align : Int)) (ne_of_gt h0)
  omega

/-- Adding the precursor length to the base address aligns it. -/
lemma aligner_aligns (a : Int) {align : Nat} (h : 0 < align) :
    (a + ((((align : Int) - a % (align : Int)) % (align : Int)).toNat : Int)) %
      (align : Int) = 0 := by
  have h0 : (0 : Int) < (align : Int) := by exact_mod_cast h
  have h2 : (0 : Int) ≤ ((align : Int) - a % (align : Int)) % (align : Int) :=
    Int.emod_nonneg _ (ne_of_gt h0)
  rw [Int.toNat_of_nonneg h2]
  rcases eq_or_ne (a % (align : Int)) 0 with hr | hr
  · rw [hr, sub_zero, Int.emod_self, add_zero]
    exact hr
  · have hlt : a % (align : Int) < (align : Int) := Int.emod_lt_of_pos a h0
    have hnn : (0 : Int) ≤ a % (align : Int) := Int.emod_nonneg a (ne_of_gt h0)
    have hmod : ((align : Int) - a % (align : Int)) % (align : Int) =
        (align : Int) - a % (align : Int) :=
      Int.emod_eq_of_lt (by omega) (by omega)
    have ha := Int.ediv_add_emod a (align : Int)
    have hkey : a + ((align : Int) - a % (align : Int)) =
        (align : Int) * (a / (align : Int) + 1) := by
      rw [mul_add, mul_one]
      linarith
    rw [hmod, hkey, Int.mul_emod_right]

/-- Elimination principle for a successful `canonical_brk`: the three returned
blocks in terms of the address `a` the inner `sbrk` returned. -/
lemma canonical_brk_ok_elim (grant : Int → Bool) (extra_brk : Nat → Nat) (l : BrkLock)
    (size align : Nat) (pre res exc : Block) (l1 : BrkLock)
    (h : BrkLock.canonical_brk grant extra_brk l size align = (.ok (pre, res, exc), l1)) :
    ∃ a : Int,
      (((align : Int) - a % (align : Int)) % (align : Int)).toNat <
        size + extra_brk size + align ∧
      pre = ⟨a, (((align : Int) - a % (align : Int)) % (align : Int)).toNat⟩ ∧
      res = ⟨a + ((((align : Int) - a % (align : Int)) % (align : Int)).toNat : Int), size⟩ ∧
      exc = ⟨a + ((((align : Int) - a % (align : Int)) % (align : Int)).toNat : Int) +
               (size : Int),
             size + extra_brk size + align -
               (((align : Int) - a % (align : Int)) % (align : Int)).toNat - size⟩ := by
  unfold BrkLock.canonical_brk at h
  rcases hsb : BrkLock.sbrk grant l ((size + extra_brk size + align : Nat) : Int) with ⟨r, l2⟩
  rw [hsb] at h
  cases r with
  | error e => simp at h
  | ok a =>
    refine ⟨a, ?_⟩
    simp only [Block.align] at h
    by_cases hcond : (((align : Int) - a % (align : Int)) % (align : Int)).toNat <
        size + extra_brk size + align
    · rw [if_pos hcond] at h
      simp only [Block.split] at h
      simp only [Prod.mk.injEq, CanonicalResult.ok.injEq] at h
      obtain ⟨⟨hp, hr, he⟩, _⟩ := h
      exact ⟨hcond, hp.symm, hr.symm, he.symm⟩
    · rw [if_neg hcond] at h
      simp at h

/-- C1: for `size > 0` and `align` a power of two, a `canonical_brk(size,
align)` that returns a triple returns address-ordered blocks (precursor ≤
result ≤ excess), the result's base address is divisible by `align`, and the
three sizes sum exactly to `size + extra_brk(size) + align` — no bytes
unaccounted for. -/
theorem canonical_brk_postconditions (grant : Int → Bool) (extra_brk : Nat → Nat)
    (l : BrkLock) (size align : Nat) (pre res exc : Block) (l1 : BrkLock)
    (hsize : 0 < size) (hpow : ∃ k : Nat, align = 2 ^ k)
    (h : BrkLock.canonical_brk grant extra_brk l size align = (.ok (pre, res, exc), l1)) :
    (pre.base ≤ res.base ∧ res.base ≤ exc.base) ∧
    res.base % (align : Int) = 0 ∧
    pre.size + res.size + exc.size = size + extra_brk size + align := by
  obtain ⟨k, hk⟩ := hpow
  have halign : 0 < align := by
    rw [hk]
    exact pow_pos (by norm_num) k
  obtain ⟨a, hlt, hpre, hres, hexc⟩ :=
    canonical_brk_ok_elim grant extra_brk l size align pre res exc l1 h
  have hsmall := aligner_lt_align a halign
  subst hpre hres hexc
  refine ⟨⟨?_, ?_⟩, ?_, ?_⟩
  · exact le_add_of_nonneg_right (by positivity)
  · exact le_add_of_nonneg_right (by positivity)
  · exact aligner_aligns a halign
  · show (((align : Int) - a % (align : Int)) % (align : Int)).toNat + size +
        (size + extra_brk size + align -
          (((align : Int) - a % (align : Int)) % (align : Int)).toNat - size) =
      size + extra_brk size + align
    omega

/-- Witness for C1: a fresh break at `0`, `size = 1`, `align = 1`, no extra
slack; the triple is `[0,0)`, `[0,1)`, `[1,2)`. -/
theorem canonical_brk_postconditions_witness :
    ((Block.base ⟨0, 0⟩ ≤ Block.base ⟨0, 1⟩ ∧ Block.base ⟨0, 1⟩ ≤ Block.base ⟨1, 1⟩) ∧
     Block.base ⟨0, 1⟩ % ((1 : Nat) : Int) = 0 ∧
     Block.size ⟨0, 0⟩ + Block.size ⟨0, 1⟩ + Block.size ⟨1, 1⟩ =
       1 + (fun _ => 0 : Nat → Nat) 1 + 1) :=
  canonical_brk_postconditions (fun _ => true) (fun _ => 0) ⟨0, ⟨some 0⟩⟩ 1 1
    ⟨0, 0⟩ ⟨0, 1⟩ ⟨1, 1⟩ ⟨2, ⟨some 2⟩⟩ (by decide) ⟨0, rfl⟩ rfl

/-- C9: whenever `canonical_brk(size, align)` returns a triple (for a positive
alignment — alignment zero would make the source divide by zero before
returning anything), the middle (result) block has byte size exactly the
requested `size`: the remainder after the alignment precursor is split at
offset `size`. -/
theorem canonical_brk_result_size (grant : Int → Bool) (extra_brk : Nat → Nat)
    (l : BrkLock) (size align : Nat) (pre res exc : Block) (l1 : BrkLock)
    (_halign : 0 < align)
    (h : BrkLock.canonical_brk grant extra_brk l size align = (.ok (pre, res, exc), l1)) :
    res.size = size := by
  obtain ⟨a, hlt, hpre, hres, hexc⟩ :=
    canonical_brk_ok_elim grant extra_brk l size align pre res exc l1 h
  rw [hres]

/-- Witness for C9: the same concrete run as for C1; the middle block has size
`1`. -/
theorem canonical_brk_result_size_witness : Block.size ⟨0, 1⟩ = 1 :=
  canonical_brk_result_size (fun _ => true) (fun _ => 0) ⟨0, ⟨some 0⟩⟩ 1 1
    ⟨0, 0⟩ ⟨0, 1⟩ ⟨1, 1⟩ ⟨2, ⟨some 2⟩⟩ (by decide) rfl

/-! ## Claim about the back-look of a successful search -/

/-- C5 (failing input): a successful search does *not* record a back-look
entry for every level down to level 0.  On the pool with the single node
`⟨5, 2⟩` (present at levels 0–2), top level 2, and the searcher that always
refines and always matches, `search_with` succeeds and the back-look entries
of levels 2 and 1 are recorded, but the level-0 cell — `seek.back_look[0]` in
the source, whose `mem::uninitialized()` contents the loop never overwrites
because it breaks when `decrement_level` returns level 1 — is left unrecorded,
although the source's closing comment asserts "all the back look cells" have
been initialized. -/
theorem search_back_look_zero_unrecorded :
    (Pool.search_with 2 ⟨[⟨5, 2⟩]⟩ ⟨fun _ => true, fun _ => true⟩).toOption.map
        (fun sk => (sk.back_look 0, (sk.back_look 1).isSome, (sk.back_look 2).isSome)) =
      some (none, true, true) := rfl

/-! ## Claim about the empty pool -/

/-- C6: searching a Pool that contains only the head sentinel (no real nodes)
fails with a search miss for every Searcher and every top level: the top-level
iteration immediately reaches NIL, so the loop exits and the bottom phase's
`iter.next()` yields nothing. -/
theorem search_with_empty_fails (top : Nat) (s : Searcher) :
    Pool.search_with top ⟨[]⟩ s = .error () := by
  cases top <;> rfl

end Ralloc
